import Mathlib

/-!
Verification development for a single-file RSS→Telegram news pipeline
(`main.py`).  The definitions below are a shallow embedding of the
program: Python strings are Lean `String`s viewed as lists of code
points, machine-level hashing (`hashlib.sha256`) is modelled bit-exactly
over `Nat` with explicit reduction mod 2^32, and the external
collaborators (feed parser, HTTP article fetcher, remote summarization
API, Telegram delivery) are passed in as explicit oracle functions.
-/

/-! ## Python string primitives -/

/-- Whitespace class used by Python's `\s` (ASCII range) and `str.strip`. -/
def pyIsSpace (c : Char) : Bool :=
  c = ' ' || c = '\t' || c = '\n' || c = '\r' || c = '\x0b' || c = '\x0c'

/-- Python `s[:n]`: the first `n` code points of `s`. -/
def pySlice (s : String) (n : Nat) : String := ⟨s.data.take n⟩

/-- Python `str.lower` on the ASCII range (all configured keywords are ASCII). -/
def pyLowerChar (c : Char) : Char :=
  if 'A' ≤ c ∧ c ≤ 'Z' then Char.ofNat (c.toNat + 32) else c

def pyLower (s : String) : String := ⟨s.data.map pyLowerChar⟩

def pyStripL (l : List Char) : List Char :=
  ((l.dropWhile pyIsSpace).reverse.dropWhile pyIsSpace).reverse

/-- Python `str.strip()`. -/
def pyStrip (s : String) : String := ⟨pyStripL s.data⟩

/-- Substring test on code-point lists (Python's `needle in hay`). -/
def containsSub (pat : List Char) : List Char → Bool
  | [] => pat.isEmpty
  | c :: rest => pat.isPrefixOf (c :: rest) || containsSub pat rest

/-- Python `needle in hay` for strings. -/
def pyIn (needle hay : String) : Bool := containsSub needle.data hay.data

/-- Python truthiness on strings: `a or b`. -/
def pyOrStr (a b : String) : String := if a = "" then b else a

/-- Python `sep.join(parts)`. -/
def pyJoin (sep : String) : List String → String
  | [] => ""
  | [s] => s
  | s :: rest => s ++ sep ++ pyJoin sep rest

/-- Replace every occurrence of the single-character needle by the empty
string, as in `s.replace(c, "")`. -/
def pyRemoveChar (s : String) (c : Char) : String := ⟨s.data.filter (· ≠ c)⟩

/-- Whitespace-collapsing scan: each maximal `\s+` run becomes a single
space (`re.sub(r"\s+", " ", s)`); `inRun` records whether the previous
character already belonged to a whitespace run. -/
def collapseGo : List Char → Bool → List Char
  | [], _ => []
  | c :: cs, inRun =>
    if pyIsSpace c then
      if inRun then collapseGo cs true else ' ' :: collapseGo cs true
    else c :: collapseGo cs false

def collapseWS (l : List Char) : List Char := collapseGo l false

/-! ## `normalize_text` (main.py line 46) -/

/-- `re.sub(r"\s+", " ", s).strip()`. -/
def normalize_text (s : String) : String := pyStrip ⟨collapseWS s.data⟩

/-! ## `sentence_split` (main.py line 49)

`re.split(r"(?<=[.!?])\s+", text)`: a split point is a maximal whitespace
run whose preceding character is terminal punctuation; the pieces are
stripped and empty pieces dropped. -/

def isTermPunct (c : Char) : Bool := c = '.' || c = '!' || c = '?'

/-- Scanner for the split.  `canSplit` records whether the previously
consumed character was `[.!?]` (the lookbehind), `acc` holds the current
piece reversed, and `skipping` means we are inside the matched (maximal)
whitespace delimiter run. -/
def splitGo : List Char → Bool → List Char → Bool → List (List Char)
  | [], _, acc, _ => [acc.reverse]
  | c :: cs, canSplit, acc, skipping =>
    if skipping then
      if pyIsSpace c then splitGo cs false [] true
      else splitGo cs (isTermPunct c) [c] false
    else if canSplit && pyIsSpace c then
      acc.reverse :: splitGo cs false [] true
    else
      splitGo cs (isTermPunct c) (c :: acc) false

def sentence_split (text : String) : List String :=
  ((splitGo text.data false [] false).map (fun l => pyStrip ⟨l⟩)).filter (· ≠ "")

/-! ## Configuration constants (main.py lines 17-25) -/

def KEYWORDS : List String :=
  ["IHSG","BEI","IDX","rupiah","inflasi","BI rate","suku bunga","obligasi","SUN",
   "BBCA","BBRI","BMRI","BBNI","ASII","TLKM","ANTM","INCO","MDKA","ADRO","PGAS",
   "PTBA","BRIS","AMMN","GOTO","ARTO","UNVR","ICBP","INDF","KLBF","CPIN","SMGR",
   "INTP","ASSA","BUKA","SIDO","HEAL","MTEL","MEDC","IPO","dividen","buyback",
   "emiten","right issue","pasar modal","saham","ekonomi","market","bursa"]

def ALLOW_ALL_IF_NO_MATCH : Bool := true

def SUMMARY_LIMIT : Nat := 600

/-! ## `simple_lead_summary` (main.py line 52) -/

/-- The accumulation loop of `simple_lead_summary`: stop when the next
sentence would push the running total over `maxChars` or three sentences
have been collected. -/
def leadLoop (maxChars : Nat) : List String → List String → Nat → List String
  | [], out, _ => out
  | s :: rest, out, total =>
    if maxChars < total + s.length ∨ 3 ≤ out.length then out
    else leadLoop maxChars rest (out ++ [s]) (total + s.length)

def simple_lead_summary (text : String) (max_chars : Nat) : String :=
  let sents := sentence_split text
  let out := leadLoop max_chars sents [] 0
  if out ≠ [] then pyJoin " " out else pySlice text max_chars

/-! ## SHA-256 (models `hashlib.sha256(...).hexdigest()`)

Bit-exact over `Nat`; every 32-bit quantity is kept reduced mod `M32`. -/

def M32 : Nat := 4294967296

def rotr (n x : Nat) : Nat := ((x >>> n) ||| (x <<< (32 - n))) % M32

def sigB0 (x : Nat) : Nat := rotr 2 x ^^^ rotr 13 x ^^^ rotr 22 x
def sigB1 (x : Nat) : Nat := rotr 6 x ^^^ rotr 11 x ^^^ rotr 25 x
def sigS0 (x : Nat) : Nat := rotr 7 x ^^^ rotr 18 x ^^^ (x >>> 3)
def sigS1 (x : Nat) : Nat := rotr 17 x ^^^ rotr 19 x ^^^ (x >>> 10)

def chFn (x y z : Nat) : Nat := (x &&& y) ^^^ ((x ^^^ (M32 - 1)) &&& z)
def majFn (x y z : Nat) : Nat := (x &&& y) ^^^ (x &&& z) ^^^ (y &&& z)

def shaK : List Nat :=
  [1116352408, 1899447441, 3049323471, 3921009573,
   961987163, 1508970993, 2453635748, 2870763221,
   3624381080, 310598401, 607225278, 1426881987,
   1925078388, 2162078206, 2614888103, 3248222580,
   3835390401, 4022224774, 264347078, 604807628,
   770255983, 1249150122, 1555081692, 1996064986,
   2554220882, 2821834349, 2952996808, 3210313671,
   3336571891, 3584528711, 113926993, 338241895,
   666307205, 773529912, 1294757372, 1396182291,
   1695183700, 1986661051, 2177026350, 2456956037,
   2730485921, 2820302411, 3259730800, 3345764771,
   3516065817, 3600352804, 4094571909, 275423344,
   430227734, 506948616, 659060556, 883997877,
   958139571, 1322822218, 1537002063, 1747873779,
   1955562222, 2024104815, 2227730452, 2361852424,
   2428436474, 2756734187, 3204031479, 3329325298]

def shaH0 : List Nat :=
  [1779033703, 3144134277, 1013904242, 2773480762,
   1359893119, 2600822924, 528734635, 1541459225]

/-- Big-endian byte expansion of `n` into `k` bytes. -/
def beBytes (k n : Nat) : List Nat :=
  ((List.range k).reverse).map (fun i => (n >>> (8 * i)) % 256)

/-- SHA-256 padding: append `0x80`, zero bytes to 56 mod 64, then the
bit length as 8 big-endian bytes. -/
def shaPad (msg : List Nat) : List Nat :=
  let L := msg.length
  let k := (64 + 56 - (L + 1) % 64) % 64
  msg ++ 0x80 :: List.replicate k 0 ++ beBytes 8 (8 * L)

/-- Group a byte list into 4-byte big-endian words. -/
def bytesToWords : List Nat → List Nat
  | b0 :: b1 :: b2 :: b3 :: rest =>
    (b0 <<< 24 ||| b1 <<< 16 ||| b2 <<< 8 ||| b3) :: bytesToWords rest
  | _ => []

/-- Extend the 16-word block to the 64-word message schedule. -/
def schedExtend : Nat → List Nat → List Nat
  | 0, w => w
  | n + 1, w =>
    let L := w.length
    schedExtend n (w ++ [(sigS1 (w.getD (L - 2) 0) + w.getD (L - 7) 0 +
      sigS0 (w.getD (L - 15) 0) + w.getD (L - 16) 0) % M32])

/-- One compression round; the state is the 8-word working variables. -/
def shaRound (st : List Nat) (kw : Nat × Nat) : List Nat :=
  match st with
  | [a, b, c, d, e, f, g, h] =>
    let t1 := (h + sigB1 e + chFn e f g + kw.1 + kw.2) % M32
    let t2 := (sigB0 a + majFn a b c) % M32
    [(t1 + t2) % M32, a, b, c, (d + t1) % M32, e, f, g]
  | other => other

/-- Compress one 16-word block into the running hash value. -/
def shaBlock (h : List Nat) (w16 : List Nat) : List Nat :=
  let w := schedExtend 48 w16
  let st := (shaK.zip w).foldl shaRound h
  (h.zip st).map (fun p => (p.1 + p.2) % M32)

/-- Consume the padded message sixteen 32-bit words at a time. -/
def shaBlocks (h : List Nat) : List Nat → List Nat
  | w0 :: w1 :: w2 :: w3 :: w4 :: w5 :: w6 :: w7 ::
    w8 :: w9 :: w10 :: w11 :: w12 :: w13 :: w14 :: w15 :: rest =>
    shaBlocks (shaBlock h
      [w0, w1, w2, w3, w4, w5, w6, w7, w8, w9, w10, w11, w12, w13, w14, w15]) rest
  | _ => h

def sha256Words (msg : List Nat) : List Nat :=
  shaBlocks shaH0 (bytesToWords (shaPad msg))

/-- One lowercase hex digit (digits then letters, as `"%x"` prints). -/
def hexDigit (n : Nat) : Char :=
  if n < 10 then Char.ofNat (48 + n) else Char.ofNat (87 + n)

def word32Hex (n : Nat) : List Char :=
  ((List.range 8).reverse).map (fun i => hexDigit ((n >>> (4 * i)) % 16))

/-- Lowercase hex digest of the SHA-256 of a byte string. -/
def sha256hex (msg : List Nat) : String := ⟨(sha256Words msg).map word32Hex |>.flatten⟩

/-- UTF-8 encoding of one code point. -/
def utf8Char (c : Char) : List Nat :=
  let n := c.toNat
  if n < 0x80 then [n]
  else if n < 0x800 then [0xc0 ||| (n >>> 6), 0x80 ||| (n &&& 0x3f)]
  else if n < 0x10000 then
    [0xe0 ||| (n >>> 12), 0x80 ||| ((n >>> 6) &&& 0x3f), 0x80 ||| (n &&& 0x3f)]
  else
    [0xf0 ||| (n >>> 18), 0x80 ||| ((n >>> 12) &&& 0x3f),
     0x80 ||| ((n >>> 6) &&& 0x3f), 0x80 ||| (n &&& 0x3f)]

/-- Python `s.encode("utf-8")` as a byte list. -/
def utf8Bytes (s : String) : List Nat := s.data.flatMap utf8Char

/-! ## `mk_hash` (main.py line 95) -/

/-- The string fed to the digest: `f"{source}::{title}::{link}"`. -/
def hashInput (source title link : String) : String :=
  source ++ "::" ++ title ++ "::" ++ link

/-- `hashlib.sha256(f"{source}::{title}::{link}".encode("utf-8")).hexdigest()`. -/
def mk_hash (source title link : String) : String :=
  sha256hex (utf8Bytes (hashInput source title link))

/-! ## Remote summarization payloads

`hf_summarize` (main.py line 62) decodes the HTTP response with
`r.json()`; the decoded value is modelled by `PyJson`.  The oracle for the
POST returns `Except.error` for any raised exception (connection error,
timeout, non-2xx status via `raise_for_status`) and `Except.ok` with the
decoded payload on HTTP success. -/

inductive PyJson where
  | str (s : String)
  | arr (xs : List PyJson)
  | obj (kvs : List (String × PyJson))
  | other

/-- The successful extraction path of `hf_summarize`: the payload must be
a non-empty list whose head is a dict mapping `"summary_text"` to a
string.  Every other shape makes the Python code fall through to the
local summary (either the `if` guard fails, or indexing/`re.sub` raises a
`TypeError` that the surrounding `except` catches). -/
def hfExtract : PyJson → Option String
  | .arr (.obj kvs :: _) =>
    match kvs.lookup "summary_text" with
    | some (.str s) => some s
    | _ => none
  | _ => none

/-! ## `hf_summarize` (main.py line 62) -/

def hf_summarize (hfToken : Option String) (remote : String → Except Unit PyJson)
    (text : String) (max_chars : Nat) : String :=
  match hfToken with
  | none => simple_lead_summary text max_chars
  | some _ =>
    match remote (pySlice text 2000) with
    | .error _ => simple_lead_summary text max_chars
    | .ok data =>
      match hfExtract data with
      | some s => pySlice (normalize_text s) max_chars
      | none => simple_lead_summary text max_chars

/-! ## `match_keywords` (main.py line 90) -/

def match_keywords (title summary body : String) : List String :=
  let blob := pyLower (title ++ " " ++ summary ++ " " ++ body)
  KEYWORDS.filter (fun k => pyIn (pyLower k) blob)

/-! ## `format_message` (main.py line 98)

The run timestamp (`datetime.now(...)`) is an input of the run and is
threaded through as the string `now`. -/

/-- `x.replace("*","").replace("_","").replace("`","")`. -/
def strip_markup (s : String) : String :=
  pyRemoveChar (pyRemoveChar (pyRemoveChar s '*') '_') '`'

def format_message (source title link summary now : String) : String :=
  let safe_title := strip_markup title
  let safe_sum := strip_markup summary
  let msg :=
    "📰 *" ++ safe_title ++ "*\n" ++
    "_" ++ source ++ "_ • 🕒 " ++ now ++ "\n\n" ++
    safe_sum ++ "\n\n" ++
    "👉 " ++ link
  pySlice msg 4000

/-! ## The run orchestrator (`process_feed` and `main`, main.py lines 111-180)

An article as produced by the external feed client: `title` and `link`
carry the `.strip()`-ed values of the corresponding entry fields and
`summaryHint` the text extracted from the entry's summary/description
HTML.  The state threaded across the run mirrors the module-global
`sent_hashes` set plus observer ghosts: the hashes and messages of this
run's successful deliveries, the number of send attempts (used to index
the delivery oracle) and the number of logged send errors. -/

structure Article where
  title : String
  link : String
  summaryHint : String

structure RunState where
  sentHashes : List String
  delivered : List String
  msgs : List String
  attempts : Nat
  sendErrors : Nat

/-- The body of `process_feed`'s `for entry in feed.entries` loop.
`c` is `sent_count`, `t` is `total_checked`.  `fetchBody` models
`fetch_article_text` (returns `""` on any fetch/parse failure), `sendOk`
models `bot.send_message` (indexed by the number of prior send attempts;
`false` = the call raised). -/
def feedLoop (source now : String) (fetchBody : String → String)
    (hfToken : Option String) (remote : String → Except Unit PyJson)
    (sendOk : Nat → Bool) :
    List Article → RunState → Nat → Nat → RunState × Nat × Nat
  | [], st, c, t => (st, c, t)
  | e :: rest, st, c, t =>
    if 3 ≤ c then (st, c, t)
    else
      if e.title = "" ∨ e.link = "" then
        feedLoop source now fetchBody hfToken remote sendOk rest st c (t + 1)
      else
        let h := mk_hash source e.title e.link
        if h ∈ st.sentHashes then
          feedLoop source now fetchBody hfToken remote sendOk rest st c (t + 1)
        else
          let body := fetchBody e.link
          let matched := match_keywords e.title e.summaryHint body
          if matched = [] ∧ ALLOW_ALL_IF_NO_MATCH = false then
            feedLoop source now fetchBody hfToken remote sendOk rest st c (t + 1)
          else
            let baseText := pyOrStr body (pyOrStr e.summaryHint e.title)
            let summary := hf_summarize hfToken remote baseText SUMMARY_LIMIT
            let msg := format_message source e.title e.link summary now
            if sendOk st.attempts then
              feedLoop source now fetchBody hfToken remote sendOk rest
                { sentHashes := h :: st.sentHashes,
                  delivered := st.delivered ++ [h],
                  msgs := st.msgs ++ [msg],
                  attempts := st.attempts + 1,
                  sendErrors := st.sendErrors } (c + 1) (t + 1)
            else
              feedLoop source now fetchBody hfToken remote sendOk rest
                { st with attempts := st.attempts + 1,
                          sendErrors := st.sendErrors + 1 } c (t + 1)

/-- `process_feed(source, url)` applied to the entry list the feed client
returned for `url`; yields the updated state plus this source's
`(sent_count, total_checked)`. -/
def process_feed (source now : String) (fetchBody : String → String)
    (hfToken : Option String) (remote : String → Except Unit PyJson)
    (sendOk : Nat → Bool) (entries : List Article) (st : RunState) :
    RunState × Nat × Nat :=
  feedLoop source now fetchBody hfToken remote sendOk entries st 0 0

/-- The `for src, u in FEEDS.items()` loop of `main` with its
per-source `try/except`: a source whose fetch/parse raises is modelled
by `Except.error` and leaves the state untouched (only a log line). -/
def mainLoop (now : String) (fetchBody : String → String)
    (hfToken : Option String) (remote : String → Except Unit PyJson)
    (sendOk : Nat → Bool) :
    List (String × Except Unit (List Article)) → RunState → RunState
  | [], st => st
  | (_, .error _) :: rest, st =>
    mainLoop now fetchBody hfToken remote sendOk rest st
  | (src, .ok entries) :: rest, st =>
    mainLoop now fetchBody hfToken remote sendOk rest
      (process_feed src now fetchBody hfToken remote sendOk entries st).1

/-- `main()`: start from the loaded store with empty ghosts, run every
source, then perform the single `json.dump` of `{"items": list(sent_hashes)}`.
The second component is the list of file writes the run performs. -/
def mainRun (now : String) (fetchBody : String → String)
    (hfToken : Option String) (remote : String → Except Unit PyJson)
    (sendOk : Nat → Bool)
    (sources : List (String × Except Unit (List Article)))
    (store0 : List String) : RunState × List (List String) :=
  let final := mainLoop now fetchBody hfToken remote sendOk sources
    { sentHashes := store0, delivered := [], msgs := [], attempts := 0, sendErrors := 0 }
  (final, [final.sentHashes])

/-! ## Helper lemmas: string lengths and the lead-summary loop -/

theorem pySlice_length (s : String) (n : Nat) : (pySlice s n).length ≤ n := by
  show (s.data.take n).length ≤ n
  simp [List.length_take]

/-- Total character count of a list of sentences. -/
def sumLens (l : List String) : Nat := (l.map String.length).sum

theorem sumLens_append_single (l : List String) (s : String) :
    sumLens (l ++ [s]) = sumLens l + s.length := by
  simp [sumLens]

theorem pyJoin_space_length (l : List String) (h : l ≠ []) :
    (pyJoin " " l).length = sumLens l + (l.length - 1) := by
  induction l with
  | nil => exact absurd rfl h
  | cons s rest ih =>
    cases rest with
    | nil => simp [pyJoin, sumLens]
    | cons a rest2 =>
      have ihr := ih (by simp)
      have hsp : (" " : String).length = 1 := rfl
      simp only [pyJoin, String.length_append, ihr, hsp]
      simp only [sumLens, List.map_cons, List.sum_cons, List.length_cons]
      omega

/-- Invariant of the accumulation loop: the collected sentences total at
most the budget and number at most three. -/
theorem leadLoop_bounds (B : Nat) (sents : List String) :
    ∀ (out : List String) (total : Nat),
      sumLens out = total → total ≤ B → out.length ≤ 3 →
      sumLens (leadLoop B sents out total) ≤ B ∧
        (leadLoop B sents out total).length ≤ 3 := by
  induction sents with
  | nil =>
    intro out total h1 h2 h3
    simp only [leadLoop]
    exact ⟨h1 ▸ h2, h3⟩
  | cons s rest ih =>
    intro out total h1 h2 h3
    rw [leadLoop]
    split
    · exact ⟨h1 ▸ h2, h3⟩
    · rename_i hcond
      push_neg at hcond
      exact ih (out ++ [s]) (total + s.length)
        (by rw [sumLens_append_single, h1]) (by omega)
        (by simp only [List.length_append, List.length_singleton]; omega)

/-- The local fallback can exceed the budget only by the joining spaces:
at most two of them (three sentences at most). -/
theorem simple_lead_summary_length (text : String) (B : Nat) :
    (simple_lead_summary text B).length ≤ B + 2 := by
  have hb := leadLoop_bounds B (sentence_split text) [] 0 rfl (Nat.zero_le B) (by simp)
  simp only [simple_lead_summary]
  split
  · rename_i hne
    rw [pyJoin_space_length _ hne]
    omega
  · exact (pySlice_length text B).trans (by omega)

/-! ## Claim C3: summarizer budget -/

/-- C3 (counterexample): the claim "the summarizer returns text of length
at most B" fails.  For `text = "ab. cd."` and budget `B = 6` the two
sentences `"ab."` and `"cd."` (3 characters each) both pass the loop's
`total + len(s) > max_chars` test, but the joining space makes the
returned summary 7 characters long. -/
theorem summary_budget_exceeded_counterexample :
    (hf_summarize none (fun _ => Except.error ()) "ab. cd." 6).length = 7 ∧
    6 < (hf_summarize none (fun _ => Except.error ()) "ab. cd." 6).length := by
  constructor
  · decide
  · decide

/-- C3 (amended): for every input text and budget `B` the summarizer
returns at most `B + 2` characters — the accumulated sentences total at
most `B`, but the single spaces joining up to three sentences can add up
to two more — and when the remote tier is unconfigured (no API key) the
output is exactly the local lead-sentence summary. -/
theorem summarizer_budget_slack_and_local_fallback (hfToken : Option String)
    (remote : String → Except Unit PyJson) (text : String) (B : Nat) :
    (hf_summarize hfToken remote text B).length ≤ B + 2 ∧
    hf_summarize none remote text B = simple_lead_summary text B := by
  constructor
  · cases hfToken with
    | none => exact simple_lead_summary_length text B
    | some tok =>
      simp only [hf_summarize]
      cases remote (pySlice text 2000) with
      | error e =>
        show (simple_lead_summary text B).length ≤ B + 2
        exact simple_lead_summary_length text B
      | ok data =>
        show (match hfExtract data with
          | some s => pySlice (normalize_text s) B
          | none => simple_lead_summary text B).length ≤ B + 2
        cases hfExtract data with
        | none => exact simple_lead_summary_length text B
        | some s =>
          exact (pySlice_length _ B).trans (Nat.le_add_right B 2)
  · rfl

/-! ## Claim C8: message formatter bound -/

/-- C8: the rendered message is at most 4000 characters, the markup
delimiters `*`, `_`, `` ` `` are removed from title and summary before
the message is composed, and the 4000-character truncation is applied to
the fully composed message (timestamp, source label, sanitized fields and
link), never to an individual field. -/
theorem format_message_bounded_after_composition
    (source title link summary now : String) :
    (format_message source title link summary now).length ≤ 4000 ∧
    format_message source title link summary now =
      pySlice ("📰 *" ++ strip_markup title ++ "*\n" ++
        "_" ++ source ++ "_ • 🕒 " ++ now ++ "\n\n" ++
        strip_markup summary ++ "\n\n" ++ "👉 " ++ link) 4000 := by
  refine ⟨?_, rfl⟩
  exact pySlice_length _ 4000

/-! ## Claim C10: malformed remote payloads fall back to the local tier -/

theorem lookup_mem_keys {α β : Type} [BEq α] [LawfulBEq α]
    (l : List (α × β)) (k : α) (v : β) (h : l.lookup k = some v) :
    k ∈ l.map Prod.fst := by
  induction l with
  | nil => simp [List.lookup] at h
  | cons p rest ih =>
    obtain ⟨k1, v1⟩ := p
    rw [List.lookup] at h
    cases hk : (k == k1) with
    | true =>
      have hkk : k = k1 := eq_of_beq hk
      simp [hkk]
    | false =>
      simp only [hk] at h
      exact List.mem_cons_of_mem _ (ih h)

/-- C10: when the remote call succeeds over HTTP but the decoded payload
is not a non-empty list whose first element is a dict containing the
`"summary_text"` key, `hf_summarize` neither raises nor returns the
malformed payload — it silently returns the local lead-sentence
summary. -/
theorem malformed_remote_payload_falls_back (tok : String)
    (remote : String → Except Unit PyJson) (text : String) (B : Nat)
    (j : PyJson) (hok : remote (pySlice text 2000) = Except.ok j)
    (hshape : ∀ kvs rest, j = PyJson.arr (PyJson.obj kvs :: rest) →
      "summary_text" ∈ kvs.map Prod.fst → False) :
    hf_summarize (some tok) remote text B = simple_lead_summary text B := by
  have hex : hfExtract j = none := by
    match j with
    | .str s => rfl
    | .other => rfl
    | .obj kvs => rfl
    | .arr [] => rfl
    | .arr (.str s :: rest) => rfl
    | .arr (.other :: rest) => rfl
    | .arr (.arr ys :: rest) => rfl
    | .arr (.obj kvs :: rest) =>
      show (match kvs.lookup "summary_text" with
        | some (.str s) => some s
        | _ => none) = none
      cases hlk : kvs.lookup "summary_text" with
      | none => rfl
      | some v =>
        have hkey : "summary_text" ∈ kvs.map Prod.fst := lookup_mem_keys kvs _ v hlk
        exact absurd hkey (fun hk => hshape kvs rest rfl hk)
  simp only [hf_summarize, hok, hex]

/-! ## Claim C4: relevance filter policy -/

/-- C4 (counterexample): the claim asserts the override flag defaults to
`false`, so an article matching no keyword would be rejected.  In the
code `ALLOW_ALL_IF_NO_MATCH = True`: the article titled `"zzz"` matches
no keyword, yet a run over that single unseen article delivers it. -/
theorem no_keyword_article_delivered_counterexample :
    match_keywords "zzz" "" "" = [] ∧
    (process_feed "S" "now" (fun _ => "") none (fun _ => Except.error ())
      (fun _ => true) [⟨"zzz", "http", ""⟩] ⟨[], [], [], 0, 0⟩).1.delivered.length = 1 := by
  constructor
  · decide
  · decide

/-- C4 (amended): `match_keywords` returns a non-empty keyword list
exactly when some vocabulary keyword is a case-insensitive substring of
the concatenation `title ++ " " ++ summary ++ " " ++ body`; the loop's
skip test is `matched = [] and not ALLOW_ALL_IF_NO_MATCH`, and the
override flag is set to `true` (not the spec's default `false`), so an
article matching no keyword still passes. -/
theorem keyword_filter_policy_flag_enabled :
    (∀ t s b, match_keywords t s b ≠ [] ↔
      ∃ k, k ∈ KEYWORDS ∧
        pyIn (pyLower k) (pyLower (t ++ " " ++ s ++ " " ++ b)) = true) ∧
    ALLOW_ALL_IF_NO_MATCH = true := by
  refine ⟨fun t s b => ?_, rfl⟩
  simp only [match_keywords, Ne, List.filter_eq_nil_iff]
  push_neg
  constructor
  · rintro ⟨k, hk, hp⟩
    exact ⟨k, hk, hp⟩
  · rintro ⟨k, hk, hp⟩
    exact ⟨k, hk, hp⟩

/-! ## Claim C6: hash determinism and separator aliasing -/

/-- C6 (counterexample): the digest input joins the fields with `"::"`,
so two triples that differ in their fields can feed the very same string
(here `"a::b::c::x"`) to SHA-256 and collide: `("a::b", "c", "x")` versus
`("a", "b::c", "x")` (the first fields differ — lengths 4 and 1). -/
theorem mk_hash_separator_collision :
    mk_hash "a::b" "c" "x" = mk_hash "a" "b::c" "x" ∧
    ("a::b" : String).length = 4 ∧ ("a" : String).length = 1 := by
  refine ⟨?_, rfl, rfl⟩
  have h : hashInput "a::b" "c" "x" = hashInput "a" "b::c" "x" := rfl
  rw [mk_hash, mk_hash, h]

theorem colon_sep_inj (a : List Char) :
    ∀ (b r r2 : List Char), ':' ∉ a → ':' ∉ b →
      a ++ ':' :: ':' :: r = b ++ ':' :: ':' :: r2 → a = b ∧ r = r2 := by
  induction a with
  | nil =>
    intro b r r2 _ hb h
    cases b with
    | nil =>
      simp only [List.nil_append, List.cons.injEq] at h
      exact ⟨rfl, h.2.2⟩
    | cons d b2 =>
      simp only [List.nil_append, List.cons_append, List.cons.injEq] at h
      exact absurd (h.1 ▸ List.mem_cons_self d b2) hb
  | cons c a2 ih =>
    intro b r r2 ha hb h
    cases b with
    | nil =>
      simp only [List.cons_append, List.nil_append, List.cons.injEq] at h
      exact absurd (h.1 ▸ List.mem_cons_self c a2) ha
    | cons d b2 =>
      simp only [List.cons_append, List.cons.injEq] at h
      obtain ⟨h1, h2⟩ := h
      have ha2 : ':' ∉ a2 := fun hm => ha (List.mem_cons_of_mem c hm)
      have hb2 : ':' ∉ b2 := fun hm => hb (List.mem_cons_of_mem d hm)
      obtain ⟨he, hr⟩ := ih b2 r r2 ha2 hb2 h2
      exact ⟨by rw [h1, he], hr⟩

theorem str_data_append (a b : String) : (a ++ b).data = a.data ++ b.data := rfl

theorem hashInput_data (s t l : String) :
    (hashInput s t l).data =
      s.data ++ ':' :: ':' :: (t.data ++ ':' :: ':' :: l.data) := by
  show ((((s ++ "::") ++ t) ++ "::") ++ l).data = _
  have hcc : ("::" : String).data = [':', ':'] := rfl
  simp [str_data_append, hcc, List.append_assoc]

/-! ## Pipeline invariants -/

/-- Over any entry list, the delivery ghost grows by some suffix `new`
and the dedup set grows by exactly the hashes in `new`. -/
theorem feedLoop_inv (source now : String) (fetchBody : String → String)
    (hfToken : Option String) (remote : String → Except Unit PyJson)
    (sendOk : Nat → Bool) (entries : List Article) :
    ∀ (st : RunState) (c t : Nat),
      ∃ new,
        (feedLoop source now fetchBody hfToken remote sendOk entries st c t).1.delivered =
          st.delivered ++ new ∧
        (feedLoop source now fetchBody hfToken remote sendOk entries st c t).1.sentHashes =
          new.reverse ++ st.sentHashes := by
  induction entries with
  | nil =>
    intro st c t
    exact ⟨[], by simp [feedLoop], by simp [feedLoop]⟩
  | cons e rest ih =>
    intro st c t
    simp only [feedLoop]
    split
    · exact ⟨[], by simp, by simp⟩
    · split
      · exact ih st c (t + 1)
      · split
        · exact ih st c (t + 1)
        · split
          · exact ih st c (t + 1)
          · split
            · obtain ⟨new, h1, h2⟩ := ih
                { sentHashes := mk_hash source e.title e.link :: st.sentHashes,
                  delivered := st.delivered ++ [mk_hash source e.title e.link],
                  msgs := st.msgs ++ [format_message source e.title e.link
                    (hf_summarize hfToken remote
                      (pyOrStr (fetchBody e.link) (pyOrStr e.summaryHint e.title))
                      SUMMARY_LIMIT) now],
                  attempts := st.attempts + 1,
                  sendErrors := st.sendErrors } (c + 1) (t + 1)
              refine ⟨mk_hash source e.title e.link :: new, ?_, ?_⟩
              · rw [h1]; simp
              · rw [h2]; simp
            · obtain ⟨new, h1, h2⟩ := ih
                { st with attempts := st.attempts + 1,
                          sendErrors := st.sendErrors + 1 } c (t + 1)
              exact ⟨new, h1, h2⟩

/-- Run-level version of `feedLoop_inv`. -/
theorem mainLoop_inv (now : String) (fetchBody : String → String)
    (hfToken : Option String) (remote : String → Except Unit PyJson)
    (sendOk : Nat → Bool)
    (sources : List (String × Except Unit (List Article))) :
    ∀ st : RunState,
      ∃ new,
        (mainLoop now fetchBody hfToken remote sendOk sources st).delivered =
          st.delivered ++ new ∧
        (mainLoop now fetchBody hfToken remote sendOk sources st).sentHashes =
          new.reverse ++ st.sentHashes := by
  induction sources with
  | nil => exact fun st => ⟨[], by simp [mainLoop], by simp [mainLoop]⟩
  | cons p rest ih =>
    intro st
    obtain ⟨src, res⟩ := p
    cases res with
    | error u => simpa [mainLoop] using ih st
    | ok entries =>
      simp only [mainLoop]
      obtain ⟨n1, h1, h2⟩ :=
        feedLoop_inv src now fetchBody hfToken remote sendOk entries st 0 0
      obtain ⟨n2, h3, h4⟩ :=
        ih (process_feed src now fetchBody hfToken remote sendOk entries st).1
      refine ⟨n1 ++ n2, ?_, ?_⟩
      · rw [h3]
        show (process_feed src now fetchBody hfToken remote sendOk entries st).1.delivered
            ++ n2 = st.delivered ++ (n1 ++ n2)
        rw [process_feed, h1, List.append_assoc]
      · rw [h4]
        show n2.reverse ++
            (process_feed src now fetchBody hfToken remote sendOk entries st).1.sentHashes
            = (n1 ++ n2).reverse ++ st.sentHashes
        rw [process_feed, h2, List.reverse_append, List.append_assoc]

/-! ## Claim C7: single atomic save at run end -/

/-- C7: a run performs exactly one store write — at run end, never
mid-run — and the store it writes is, as one complete value, the loaded
store extended by precisely the hashes of this run's successful
deliveries, even when some sources errored or some sends failed. -/
theorem store_saved_once_at_run_end (now : String) (fetchBody : String → String)
    (hfToken : Option String) (remote : String → Except Unit PyJson)
    (sendOk : Nat → Bool)
    (sources : List (String × Except Unit (List Article))) (store0 : List String) :
    (mainRun now fetchBody hfToken remote sendOk sources store0).2 =
      [(mainRun now fetchBody hfToken remote sendOk sources store0).1.sentHashes] ∧
    (mainRun now fetchBody hfToken remote sendOk sources store0).1.sentHashes =
      (mainRun now fetchBody hfToken remote sendOk sources store0).1.delivered.reverse
        ++ store0 := by
  refine ⟨rfl, ?_⟩
  obtain ⟨new, h1, h2⟩ := mainLoop_inv now fetchBody hfToken remote sendOk sources
    { sentHashes := store0, delivered := [], msgs := [], attempts := 0, sendErrors := 0 }
  show (mainLoop now fetchBody hfToken remote sendOk sources
      { sentHashes := store0, delivered := [], msgs := [], attempts := 0,
        sendErrors := 0 }).sentHashes =
    (mainLoop now fetchBody hfToken remote sendOk sources
      { sentHashes := store0, delivered := [], msgs := [], attempts := 0,
        sendErrors := 0 }).delivered.reverse ++ store0
  rw [h1, h2]
  simp

/-! ## Claim C1: hash enters the store iff its delivery succeeded -/

/-- C1: a hash is in the final (saved) store exactly when it was
successfully delivered in this run or was already in the loaded store;
and when a send raises, the state change is exactly one more attempt and
one more logged error — the hash is withheld and the loop continues with
the next article of the same source. -/
theorem store_updates_iff_delivery_succeeded :
    (∀ (now : String) (fetchBody : String → String) (hfToken : Option String)
      (remote : String → Except Unit PyJson) (sendOk : Nat → Bool)
      (sources : List (String × Except Unit (List Article)))
      (store0 : List String) (h : String),
      h ∈ (mainRun now fetchBody hfToken remote sendOk sources store0).1.sentHashes ↔
        h ∈ (mainRun now fetchBody hfToken remote sendOk sources store0).1.delivered ∨
        h ∈ store0) ∧
    (∀ (source now : String) (fetchBody : String → String) (hfToken : Option String)
      (remote : String → Except Unit PyJson) (sendOk : Nat → Bool)
      (e : Article) (rest : List Article) (st : RunState) (c t : Nat),
      c < 3 → e.title ≠ "" → e.link ≠ "" →
      mk_hash source e.title e.link ∉ st.sentHashes →
      sendOk st.attempts = false →
      feedLoop source now fetchBody hfToken remote sendOk (e :: rest) st c t =
        feedLoop source now fetchBody hfToken remote sendOk rest
          { st with attempts := st.attempts + 1,
                    sendErrors := st.sendErrors + 1 } c (t + 1)) := by
  constructor
  · intro now fetchBody hfToken remote sendOk sources store0 h
    have hsv :=
      (store_saved_once_at_run_end now fetchBody hfToken remote sendOk sources store0).2
    rw [hsv]
    simp [List.mem_append]
  · intro source now fetchBody hfToken remote sendOk e rest st c t hc ht hl hmem hsend
    simp only [feedLoop]
    rw [if_neg (by omega), if_neg (by simp [ht, hl]), if_neg hmem,
      if_neg (by simp [ALLOW_ALL_IF_NO_MATCH]), hsend]
    simp

/-! ## Claim C9: a failing source is isolated -/

theorem mainLoop_error_source_skipped (now : String) (fetchBody : String → String)
    (hfToken : Option String) (remote : String → Except Unit PyJson)
    (sendOk : Nat → Bool) (src : String)
    (post : List (String × Except Unit (List Article))) :
    ∀ (pre : List (String × Except Unit (List Article))) (st : RunState),
      mainLoop now fetchBody hfToken remote sendOk
          (pre ++ (src, Except.error ()) :: post) st =
        mainLoop now fetchBody hfToken remote sendOk (pre ++ post) st := by
  intro pre
  induction pre with
  | nil => intro st; simp [mainLoop]
  | cons p rest ih =>
    intro st
    obtain ⟨s2, res⟩ := p
    cases res with
    | error u => simpa [mainLoop] using ih st
    | ok entries =>
      simpa [mainLoop] using
        (ih (process_feed s2 now fetchBody hfToken remote sendOk entries st).1)

/-- C9: when fetching/processing one source's feed raises, the error is
caught at the per-source boundary: the failing source contributes
nothing (the run equals the run with that source removed), every other
source is still processed, and the run still completes with its single
end-of-run store write. -/
theorem failing_source_isolated_run_completes (now : String)
    (fetchBody : String → String) (hfToken : Option String)
    (remote : String → Except Unit PyJson) (sendOk : Nat → Bool)
    (pre post : List (String × Except Unit (List Article))) (src : String)
    (store0 : List String) :
    mainRun now fetchBody hfToken remote sendOk
        (pre ++ (src, Except.error ()) :: post) store0 =
      mainRun now fetchBody hfToken remote sendOk (pre ++ post) store0 ∧
    (mainRun now fetchBody hfToken remote sendOk
        (pre ++ (src, Except.error ()) :: post) store0).2 =
      [(mainRun now fetchBody hfToken remote sendOk
        (pre ++ (src, Except.error ()) :: post) store0).1.sentHashes] := by
  constructor
  · simp only [mainRun]
    rw [mainLoop_error_source_skipped now fetchBody hfToken remote sendOk src post pre]
  · exact (store_saved_once_at_run_end now fetchBody hfToken remote sendOk _ store0).1

/-! ## Claim C2: idempotence on a fully covered feed -/

/-- If every well-formed entry's hash is already in the store, the loop
only skips: state and count are unchanged. -/
theorem feedLoop_all_seen (source now : String) (fetchBody : String → String)
    (hfToken : Option String) (remote : String → Except Unit PyJson)
    (sendOk : Nat → Bool) (entries : List Article) :
    ∀ (st : RunState) (c t : Nat),
      (∀ e ∈ entries, e.title ≠ "" → e.link ≠ "" →
        mk_hash source e.title e.link ∈ st.sentHashes) →
      (feedLoop source now fetchBody hfToken remote sendOk entries st c t).1 = st ∧
      (feedLoop source now fetchBody hfToken remote sendOk entries st c t).2.1 = c := by
  induction entries with
  | nil => intro st c t _; exact ⟨rfl, rfl⟩
  | cons e rest ih =>
    intro st c t hcov
    have hcovr : ∀ e2 ∈ rest, e2.title ≠ "" → e2.link ≠ "" →
        mk_hash source e2.title e2.link ∈ st.sentHashes :=
      fun e2 he2 => hcov e2 (List.mem_cons_of_mem e he2)
    simp only [feedLoop]
    split
    · exact ⟨rfl, rfl⟩
    · split
      · exact ih st c (t + 1) hcovr
      · split
        · exact ih st c (t + 1) hcovr
        · rename_i hok hmem
          rw [not_or] at hok
          exact absurd (hcov e (List.mem_cons_self e rest) hok.1 hok.2) hmem

/-- Run-level: a store covering every well-formed article of every
successfully fetched source is left untouched. -/
theorem mainLoop_all_seen (now : String) (fetchBody : String → String)
    (hfToken : Option String) (remote : String → Except Unit PyJson)
    (sendOk : Nat → Bool) (sources : List (String × Except Unit (List Article))) :
    ∀ st : RunState,
      (∀ src entries, (src, Except.ok entries) ∈ sources →
        ∀ e ∈ entries, e.title ≠ "" → e.link ≠ "" →
          mk_hash src e.title e.link ∈ st.sentHashes) →
      mainLoop now fetchBody hfToken remote sendOk sources st = st := by
  induction sources with
  | nil => intro st _; rfl
  | cons p rest ih =>
    intro st hcov
    obtain ⟨src, res⟩ := p
    cases res with
    | error u =>
      exact ih st fun s2 en hmem => hcov s2 en (List.mem_cons_of_mem _ hmem)
    | ok entries =>
      have hfeed := (feedLoop_all_seen src now fetchBody hfToken remote sendOk
        entries st 0 0 (hcov src entries (List.mem_cons_self _ _))).1
      show mainLoop now fetchBody hfToken remote sendOk rest
        (process_feed src now fetchBody hfToken remote sendOk entries st).1 = st
      rw [process_feed, hfeed]
      exact ih st fun s2 en hmem => hcov s2 en (List.mem_cons_of_mem _ hmem)

/-- C2: if the loaded store already contains the hash of every
(well-formed) article of every feed, the run delivers zero new messages
and the store it saves is exactly the store it loaded. -/
theorem covered_feeds_run_idempotent (now : String) (fetchBody : String → String)
    (hfToken : Option String) (remote : String → Except Unit PyJson)
    (sendOk : Nat → Bool) (sources : List (String × Except Unit (List Article)))
    (store0 : List String)
    (hcov : ∀ src entries, (src, Except.ok entries) ∈ sources →
      ∀ e ∈ entries, e.title ≠ "" → e.link ≠ "" →
        mk_hash src e.title e.link ∈ store0) :
    (mainRun now fetchBody hfToken remote sendOk sources store0).1.sentHashes = store0 ∧
    (mainRun now fetchBody hfToken remote sendOk sources store0).1.delivered = [] ∧
    (mainRun now fetchBody hfToken remote sendOk sources store0).1.msgs = [] ∧
    (mainRun now fetchBody hfToken remote sendOk sources store0).2 = [store0] := by
  have hrun := mainLoop_all_seen now fetchBody hfToken remote sendOk sources
    { sentHashes := store0, delivered := [], msgs := [], attempts := 0, sendErrors := 0 }
    hcov
  refine ⟨?_, ?_, ?_, ?_⟩ <;>
    simp only [mainRun, hrun]

/-! ## Claim C5: per-source cap -/

/-- The per-source delivered count can never pass 3: the loop breaks as
soon as `sent_count >= 3`. -/
theorem feedLoop_count_le (source now : String) (fetchBody : String → String)
    (hfToken : Option String) (remote : String → Except Unit PyJson)
    (sendOk : Nat → Bool) (entries : List Article) :
    ∀ (st : RunState) (c t : Nat), c ≤ 3 →
      (feedLoop source now fetchBody hfToken remote sendOk entries st c t).2.1 ≤ 3 := by
  induction entries with
  | nil => intro st c t hc; exact hc
  | cons e rest ih =>
    intro st c t hc
    simp only [feedLoop]
    split
    · exact hc
    · rename_i h3
      split
      · exact ih st c (t + 1) hc
      · split
        · exact ih st c (t + 1) hc
        · split
          · exact ih st c (t + 1) hc
          · split
            · exact ih _ (c + 1) (t + 1) (by omega)
            · exact ih _ c (t + 1) hc

/-- On a feed of unseen, well-formed, pairwise-distinct articles with
every send succeeding, the loop delivers exactly the first `3 - c`
articles in feed order. -/
theorem feedLoop_fresh_all_success (source now : String) (fetchBody : String → String)
    (hfToken : Option String) (remote : String → Except Unit PyJson)
    (sendOk : Nat → Bool) (hsend : ∀ n, sendOk n = true) (entries : List Article) :
    ∀ (st : RunState) (c t : Nat), c ≤ 3 →
      (∀ e ∈ entries, e.title ≠ "" ∧ e.link ≠ "") →
      (∀ e ∈ entries, mk_hash source e.title e.link ∉ st.sentHashes) →
      (entries.map (fun e => mk_hash source e.title e.link)).Nodup →
      (feedLoop source now fetchBody hfToken remote sendOk entries st c t).1.delivered =
        st.delivered ++
          (entries.take (3 - c)).map (fun e => mk_hash source e.title e.link) ∧
      (feedLoop source now fetchBody hfToken remote sendOk entries st c t).1.sentHashes =
        ((entries.take (3 - c)).map
          (fun e => mk_hash source e.title e.link)).reverse ++ st.sentHashes ∧
      (feedLoop source now fetchBody hfToken remote sendOk entries st c t).2.1 =
        min 3 (c + entries.length) := by
  induction entries with
  | nil =>
    intro st c t hc _ _ _
    refine ⟨by simp [feedLoop], by simp [feedLoop], ?_⟩
    show c = min 3 (c + 0)
    omega
  | cons e rest ih =>
    intro st c t hc hfield hfresh hnodup
    simp only [feedLoop]
    by_cases h3 : 3 ≤ c
    · rw [if_pos h3]
      have hc3 : c = 3 := by omega
      subst hc3
      refine ⟨by simp, by simp, ?_⟩
      show 3 = min 3 (3 + (rest.length + 1))
      omega
    · obtain ⟨ht, hl⟩ := hfield e (List.mem_cons_self e rest)
      rw [List.map_cons, List.nodup_cons] at hnodup
      obtain ⟨hhead, hnodup2⟩ := hnodup
      have hfield2 : ∀ e2 ∈ rest, e2.title ≠ "" ∧ e2.link ≠ "" :=
        fun e2 he2 => hfield e2 (List.mem_cons_of_mem e he2)
      have hfresh2 : ∀ e2 ∈ rest, mk_hash source e2.title e2.link ∉
          mk_hash source e.title e.link :: st.sentHashes := by
        intro e2 he2
        rw [List.mem_cons, not_or]
        refine ⟨?_, hfresh e2 (List.mem_cons_of_mem e he2)⟩
        intro hbad
        apply hhead
        rw [← hbad]
        exact List.mem_map.mpr ⟨e2, he2, rfl⟩
      have h3c : 3 - c = (3 - (c + 1)) + 1 := by omega
      split
      · rename_i hbad
        exact absurd hbad h3
      · split
        · rename_i hbad
          exact absurd hbad (by simp [ht, hl])
        · split
          · rename_i hmem
            exact absurd hmem (hfresh e (List.mem_cons_self e rest))
          · split
            · rename_i hskip
              simp [ALLOW_ALL_IF_NO_MATCH] at hskip
            · split
              · obtain ⟨hd, hh, hcnt⟩ := ih
                  { sentHashes := mk_hash source e.title e.link :: st.sentHashes,
                    delivered := st.delivered ++ [mk_hash source e.title e.link],
                    msgs := st.msgs ++ [format_message source e.title e.link
                      (hf_summarize hfToken remote
                        (pyOrStr (fetchBody e.link) (pyOrStr e.summaryHint e.title))
                        SUMMARY_LIMIT) now],
                    attempts := st.attempts + 1,
                    sendErrors := st.sendErrors } (c + 1) (t + 1)
                    (by omega) hfield2 hfresh2 hnodup2
                refine ⟨?_, ?_, ?_⟩
                · rw [hd, h3c, List.take_succ_cons, List.map_cons]
                  simp
                · rw [hh, h3c, List.take_succ_cons, List.map_cons]
                  simp
                · rw [hcnt]
                  show min 3 (c + 1 + rest.length) = min 3 (c + (rest.length + 1))
                  omega
              · rename_i hfail
                rw [hsend st.attempts] at hfail
                exact absurd rfl hfail

/-- C5: a feed of 10 unseen, well-formed, pairwise-distinct articles
(every one passes the filter since the override flag is on) with all
sends succeeding delivers exactly the first 3 in feed order, adds
exactly those 3 hashes to the store, leaves the other 7 hashes absent,
and in general no run of `process_feed` ever reports more than 3
deliveries. -/
theorem per_source_cap_three_of_ten (source now : String)
    (fetchBody : String → String) (hfToken : Option String)
    (remote : String → Except Unit PyJson) (sendOk : Nat → Bool)
    (entries : List Article) (st : RunState)
    (hsend : ∀ n, sendOk n = true)
    (hlen : entries.length = 10)
    (hfield : ∀ e ∈ entries, e.title ≠ "" ∧ e.link ≠ "")
    (hfresh : ∀ e ∈ entries, mk_hash source e.title e.link ∉ st.sentHashes)
    (hnodup : (entries.map (fun e => mk_hash source e.title e.link)).Nodup) :
    (process_feed source now fetchBody hfToken remote sendOk entries st).2.1 = 3 ∧
    (process_feed source now fetchBody hfToken remote sendOk entries st).1.delivered =
      st.delivered ++ (entries.take 3).map (fun e => mk_hash source e.title e.link) ∧
    (process_feed source now fetchBody hfToken remote sendOk entries st).1.sentHashes =
      ((entries.take 3).map (fun e => mk_hash source e.title e.link)).reverse ++
        st.sentHashes ∧
    (∀ e ∈ entries.drop 3, mk_hash source e.title e.link ∉
      (process_feed source now fetchBody hfToken remote sendOk entries st).1.sentHashes) ∧
    (∀ (entries2 : List Article) (st2 : RunState),
      (process_feed source now fetchBody hfToken remote sendOk entries2 st2).2.1 ≤ 3) := by
  obtain ⟨hd, hh, hcnt⟩ := feedLoop_fresh_all_success source now fetchBody hfToken
    remote sendOk hsend entries st 0 0 (by omega) hfield hfresh hnodup
  simp only [Nat.sub_zero, Nat.zero_add] at hd hh hcnt
  have habsent : ∀ e ∈ entries.drop 3, mk_hash source e.title e.link ∉
      ((entries.take 3).map (fun e => mk_hash source e.title e.link)).reverse ++
        st.sentHashes := by
    intro e he
    have he2 : e ∈ entries := List.drop_subset 3 entries he
    have hsplit : entries.map (fun e => mk_hash source e.title e.link) =
        (entries.take 3).map (fun e => mk_hash source e.title e.link) ++
        (entries.drop 3).map (fun e => mk_hash source e.title e.link) := by
      rw [← List.map_append, List.take_append_drop]
    have hnd := hsplit ▸ hnodup
    have hdisj := List.disjoint_of_nodup_append hnd
    have hmem : mk_hash source e.title e.link ∈
        (entries.drop 3).map (fun e => mk_hash source e.title e.link) :=
      List.mem_map.mpr ⟨e, he, rfl⟩
    rw [List.mem_append, List.mem_reverse, not_or]
    exact ⟨fun hin => hdisj hin hmem, hfresh e he2⟩
  simp only [process_feed]
  refine ⟨?_, hd, hh, ?_, ?_⟩
  · rw [hcnt, hlen]
    rfl
  · intro e he
    rw [hh]
    exact habsent e he
  · intro entries2 st2
    exact feedLoop_count_le source now fetchBody hfToken remote sendOk entries2
      st2 0 0 (by omega)

/-- C6 (amended): the content hash is pure — identical inputs always
produce identical output — and when the fields contain no `':'`, two
triples that differ in at least one field produce different digest
inputs (the `"::"`-joined encoding is injective on colon-free fields);
fields containing `"::"` can alias, as the counterexample shows. -/
theorem mk_hash_deterministic_separator_injective :
    (∀ s t l s2 t2 l2 : String, s = s2 → t = t2 → l = l2 →
      mk_hash s t l = mk_hash s2 t2 l2) ∧
    (∀ s t l s2 t2 l2 : String,
      ':' ∉ s.data → ':' ∉ t.data → ':' ∉ s2.data → ':' ∉ t2.data →
      hashInput s t l = hashInput s2 t2 l2 → s = s2 ∧ t = t2 ∧ l = l2) := by
  constructor
  · intro s t l s2 t2 l2 h1 h2 h3
    rw [h1, h2, h3]
  · intro s t l s2 t2 l2 hs ht hs2 ht2 heq
    have hd : (hashInput s t l).data = (hashInput s2 t2 l2).data := by rw [heq]
    rw [hashInput_data, hashInput_data] at hd
    obtain ⟨h1, h2⟩ := colon_sep_inj s.data s2.data _ _ hs hs2 hd
    obtain ⟨h3, h4⟩ := colon_sep_inj t.data t2.data _ _ ht ht2 h2
    refine ⟨?_, ?_, ?_⟩
    · cases s; cases s2; exact congrArg String.mk h1
    · cases t; cases t2; exact congrArg String.mk h3
    · cases l; cases l2; exact congrArg String.mk h4

/-! ## Witnesses -/

/-- Witness for C6: both parts applied at the colon-free triple
`("a", "b", "c")`. -/
theorem mk_hash_deterministic_separator_injective_witness :
    (':' ∉ ("a" : String).data) ∧
    mk_hash "a" "b" "c" = mk_hash "a" "b" "c" ∧
    (("a" : String) = "a" ∧ ("b" : String) = "b" ∧ ("c" : String) = "c") := by
  refine ⟨by decide, ?_, ?_⟩
  · exact mk_hash_deterministic_separator_injective.1 "a" "b" "c" "a" "b" "c"
      rfl rfl rfl
  · exact mk_hash_deterministic_separator_injective.2 "a" "b" "c" "a" "b" "c"
      (by decide) (by decide) (by decide) (by decide) rfl

/-- Witness for C10: a `200 OK` whose payload decodes to the empty list
makes the summarizer return the local summary. -/
theorem malformed_remote_payload_falls_back_witness :
    ((fun _ : String => Except.ok (ε := Unit) (PyJson.arr []))
        (pySlice "Hi. Bye." 2000) = Except.ok (PyJson.arr [])) ∧
    hf_summarize (some "k") (fun _ => Except.ok (PyJson.arr [])) "Hi. Bye." 600 =
      simple_lead_summary "Hi. Bye." 600 := by
  refine ⟨rfl, ?_⟩
  exact malformed_remote_payload_falls_back "k" (fun _ => Except.ok (PyJson.arr []))
    "Hi. Bye." 600 (PyJson.arr []) rfl (fun kvs rest hj _ => by simp at hj)

/-- Witness for C1, instantiating the spec's failure-withholding
scenario: source `"K"` yields two unseen articles, the first send
succeeds, the second raises.  Part 1 is applied to the resulting run and
the second article's hash; part 2 to a single-article feed whose send
fails. -/
theorem store_updates_iff_delivery_succeeded_witness :
    ((0 : Nat) < 3) ∧
    (feedLoop "K" "now" (fun _ => "") none (fun _ => Except.error ())
        (fun _ => false) [⟨"T2", "L2", ""⟩] ⟨[], [], [], 0, 0⟩ 0 0 =
      feedLoop "K" "now" (fun _ => "") none (fun _ => Except.error ())
        (fun _ => false) [] ⟨[], [], [], 1, 1⟩ 0 1) ∧
    (mk_hash "K" "T2" "L2" ∈
        (mainRun "now" (fun _ => "") none (fun _ => Except.error ())
          (fun n => n == 0)
          [("K", Except.ok [⟨"T1", "L1", ""⟩, ⟨"T2", "L2", ""⟩])] []).1.sentHashes ↔
      mk_hash "K" "T2" "L2" ∈
        (mainRun "now" (fun _ => "") none (fun _ => Except.error ())
          (fun n => n == 0)
          [("K", Except.ok [⟨"T1", "L1", ""⟩, ⟨"T2", "L2", ""⟩])] []).1.delivered ∨
      mk_hash "K" "T2" "L2" ∈ ([] : List String)) := by
  refine ⟨by decide, ?_, ?_⟩
  · exact store_updates_iff_delivery_succeeded.2 "K" "now" (fun _ => "") none
      (fun _ => Except.error ()) (fun _ => false) ⟨"T2", "L2", ""⟩ [] ⟨[], [], [], 0, 0⟩
      0 0 (by decide) (by decide) (by decide) (by simp) rfl
  · exact store_updates_iff_delivery_succeeded.1 "now" (fun _ => "") none
      (fun _ => Except.error ()) (fun n => n == 0)
      [("K", Except.ok [⟨"T1", "L1", ""⟩, ⟨"T2", "L2", ""⟩])] [] (mk_hash "K" "T2" "L2")

/-- Witness for C2: a one-source run whose only article's hash is already
stored leaves the store exactly as loaded. -/
theorem covered_feeds_run_idempotent_witness :
    (∀ src entries, (src, Except.ok entries) ∈
        ([("S", Except.ok [(⟨"T", "L", ""⟩ : Article)])] :
          List (String × Except Unit (List Article))) →
      ∀ e ∈ entries, e.title ≠ "" → e.link ≠ "" →
        mk_hash src e.title e.link ∈ [mk_hash "S" "T" "L"]) ∧
    (mainRun "now" (fun _ => "") none (fun _ => Except.error ()) (fun _ => true)
      [("S", Except.ok [⟨"T", "L", ""⟩])] [mk_hash "S" "T" "L"]).1.sentHashes =
      [mk_hash "S" "T" "L"] ∧
    (mainRun "now" (fun _ => "") none (fun _ => Except.error ()) (fun _ => true)
      [("S", Except.ok [⟨"T", "L", ""⟩])] [mk_hash "S" "T" "L"]).1.delivered = [] := by
  have hcov : ∀ src entries, (src, Except.ok entries) ∈
      ([("S", Except.ok [(⟨"T", "L", ""⟩ : Article)])] :
        List (String × Except Unit (List Article))) →
      ∀ e ∈ entries, e.title ≠ "" → e.link ≠ "" →
        mk_hash src e.title e.link ∈ [mk_hash "S" "T" "L"] := by
    intro src entries hmem e he _ _
    simp only [List.mem_singleton, Prod.mk.injEq, Except.ok.injEq] at hmem
    obtain ⟨rfl, rfl⟩ := hmem
    simp only [List.mem_singleton] at he
    subst he
    exact List.mem_singleton.mpr rfl
  have h := covered_feeds_run_idempotent "now" (fun _ => "") none
    (fun _ => Except.error ()) (fun _ => true)
    [("S", Except.ok [⟨"T", "L", ""⟩])] [mk_hash "S" "T" "L"] hcov
  exact ⟨hcov, h.1, h.2.1⟩

/-- Ten distinct well-formed articles used to witness the cap claim. -/
def capEntries : List Article :=
  [⟨"T1", "L1", ""⟩, ⟨"T2", "L2", ""⟩, ⟨"T3", "L3", ""⟩, ⟨"T4", "L4", ""⟩,
   ⟨"T5", "L5", ""⟩, ⟨"T6", "L6", ""⟩, ⟨"T7", "L7", ""⟩, ⟨"T8", "L8", ""⟩,
   ⟨"T9", "L9", ""⟩, ⟨"T10", "L10", ""⟩]

/-- Witness for C5: ten unseen distinct articles, every send succeeding,
yield exactly 3 deliveries — the first three in feed order. -/
theorem per_source_cap_three_of_ten_witness :
    capEntries.length = 10 ∧
    (capEntries.map (fun e => mk_hash "S" e.title e.link)).Nodup ∧
    (process_feed "S" "now" (fun _ => "") none (fun _ => Except.error ())
      (fun _ => true) capEntries ⟨[], [], [], 0, 0⟩).2.1 = 3 ∧
    (process_feed "S" "now" (fun _ => "") none (fun _ => Except.error ())
      (fun _ => true) capEntries ⟨[], [], [], 0, 0⟩).1.delivered =
      (capEntries.take 3).map (fun e => mk_hash "S" e.title e.link) := by
  have h := per_source_cap_three_of_ten "S" "now" (fun _ => "") none
    (fun _ => Except.error ()) (fun _ => true) capEntries ⟨[], [], [], 0, 0⟩
    (fun n => rfl) (by decide) (by decide)
    (fun e he => List.not_mem_nil _) (by decide)
  exact ⟨by decide, by decide, h.1, h.2.1⟩
